import Mathlib

/-!
Verification of the OCI object-storage backend adapter
(`internal/backend/oci/oci.go` and `config.go`).

The Go code is shallowly embedded: every remote operation issued through
the OCI SDK client is modelled by an abstract `Client` record holding the
response each remote call would return, and every backend method returns
its Go result together with the ordered list of remote calls it issued.
Go `(value, error)` pairs become `value × Option GoError` (or
`Except GoError value` when the value is unused on error), Go `int64`
becomes `Int`, and Go string manipulation is re-implemented on `List Char`
following the standard-library algorithms used by the source
(`strings.Cut`, `strings.TrimPrefix`, `strings.Split`, `path.Clean`,
`path.Base`).
-/

/-- A Go error value.  `httpStatus = some n` models an error that wraps an
OCI `common.ServiceError` with HTTP status code `n` (visible through
`errors.As`); `none` models any other non-nil error. -/
structure GoError where
  msg : String
  httpStatus : Option Nat
deriving DecidableEq

deriving instance DecidableEq for Except

/-- Go `errors.Wrap(err, m)`: returns nil when `err` is nil, otherwise wraps
while keeping the cause (so `errors.As` still finds a service error). -/
def goWrap (err : Option GoError) (m : String) : Option GoError :=
  match err with
  | none => none
  | some e => some { msg := m ++ ": " ++ e.msg, httpStatus := e.httpStatus }

/-- Function `SafeDeref[T](p *T)` from oci.go: dereference or the zero value. -/
def SafeDeref {α : Type} [Inhabited α] (p : Option α) : α :=
  match p with
  | none => default
  | some v => v

/-- Result of `getRange` in oci.go: the byte-range string and the error
slot of the Go `(string, error)` return. -/
def getRange (start end_ : Int) : String × Option GoError :=
  if start = 0 ∧ end_ < 0 then
    ("bytes=" ++ toString end_, none)
  else if 0 < start ∧ end_ = 0 then
    ("bytes=" ++ toString start ++ "-", none)
  else if 0 ≤ start ∧ start ≤ end_ then
    ("bytes=" ++ toString start ++ "-" ++ toString end_, none)
  else
    ("bytes=-1",
     some { msg := "Invalid range specified: start=" ++ toString start ++ " end=" ++ toString end_,
            httpStatus := none })

example : getRange 0 (-100) = ("bytes=-100", none) := by decide
example : getRange 50 0 = ("bytes=50-", none) := by decide
example : getRange 10 20 = ("bytes=10-20", none) := by decide
example : (getRange 20 10).2.isSome := by decide

/-- The restic file-type category of a handle (`restic.FileType`). -/
inductive FileType where
  | packFile
  | keyFile
  | lockFile
  | snapshotFile
  | indexFile
  | configFile
deriving DecidableEq

/-- Type `restic.Handle`: a file-type category plus an uninterpreted name string. -/
structure Handle where
  type : FileType
  name : String
deriving DecidableEq

/-- Type `restic.FileInfo` as used by `Stat` and `List`: {size, name}. -/
structure FileInfo where
  size : Int
  name : String
deriving DecidableEq

/-- Response of the OCI SDK `HeadObject` call: the fields the backend
reads (`ContentLength`, a possibly-nil pointer, and the raw HTTP status). -/
structure HeadObjectResponse where
  contentLength : Option Int
  statusCode : Nat
deriving DecidableEq

/-- An entry of an OCI `ListObjects` response (`Name` is a pointer). -/
structure ObjectSummary where
  name : Option String
deriving DecidableEq

/-- Response of `GetBucket`: the backend only reads the raw HTTP status. -/
structure GetBucketResponse where
  statusCode : Nat
deriving DecidableEq

/-- One remote call issued through the OCI SDK client, or a `List`
callback invocation, recorded in order of issue. -/
inductive Call where
  | getNamespace
  | headObject (ns bucket obj : String)
  | uploadStream (ns bucket obj : String)
  | getObject (ns bucket obj : String) (range : Option String)
  | deleteObject (ns bucket obj : String)
  | copyObject (ns bucket src dst dstBucket dstRegion dstNs : String)
  | listObjects (ns bucket pre : String)
  | getBucket (ns bucket : String)
  | createBucket (ns bucket compartment : String)
  | callback (name : String) (size : Int)
deriving DecidableEq

/-- The OCI object-storage client, abstracted as the responses each
remote call would produce.  Responses may depend on the request
arguments; the backend code under verification never inspects more of a
response than modelled here. -/
structure Client where
  namespaceResp : Except GoError String
  headObjectResp : String → String → String → Except GoError HeadObjectResponse
  uploadStreamResp : String → String → String → Option GoError
  getObjectResp : String → String → String → Option String → Option GoError
  deleteObjectResp : String → String → String → Option GoError
  copyObjectResp : String → String → String → String → Option GoError
  listObjectsResp : String → String → String → Except GoError (List ObjectSummary)
  getBucketResp : String → String → GetBucketResponse × Option GoError
  createBucketResp : String → String → String → Option GoError

/-- Connection configuration (`Config` in config.go); only the fields the
backend operations read.  `pref` models the Go field `Prefix`. -/
structure Config where
  bucketName : String
  pref : String
  region : String
  compartmentOCID : String
  connections : Nat
deriving DecidableEq

/-- The backend adapter: configuration plus the pluggable key layout
(`layout.Layout`), abstracted as the key-derivation function
`be.Filename` and the per-type prefix function `be.Basedir`. -/
structure Backend where
  cfg : Config
  filename : Handle → String
  basedir : FileType → String

/-- Method `(be *Backend) IsNotExist(err)`: true iff the error wraps a service
error with HTTP status 404 (`errors.As` + `GetHTTPStatusCode() == 404`). -/
def Backend.IsNotExist (err : Option GoError) : Bool :=
  match err with
  | none => false
  | some e => e.httpStatus = some 404

/-- Function `getOCINamespace`: fetch the tenancy namespace, wrapping failures. -/
def getOCINamespace (c : Client) : Except GoError String × List Call :=
  match c.namespaceResp with
  | .error e => (.error { msg := "unable to fetch namespace: " ++ e.msg, httpStatus := e.httpStatus },
                 [Call.getNamespace])
  | .ok v => (.ok v, [Call.getNamespace])

/-- The `deleteObject` helper from oci.go: issue `DeleteObject`, propagate
its error unchanged. -/
def deleteObject (c : Client) (ns bucket obj : String) : Option GoError × List Call :=
  (c.deleteObjectResp ns bucket obj, [Call.deleteObject ns bucket obj])

/-- Go `strings.HasPrefix` on character lists. -/
def goHasPref : List Char → List Char → Bool
  | [], _ => true
  | _ :: _, [] => false
  | p :: ps, c :: cs => p = c && goHasPref ps cs

/-- Go `strings.TrimPrefix` on character lists: drop `pre` when it is a
prefix of `s`, otherwise return `s` unchanged. -/
def goTrimPref (pre s : List Char) : List Char :=
  if goHasPref pre s then s.drop pre.length else s

/-- Go `strings.HasSuffix(s, "/")` as the backend uses it. -/
def goHasSlashSuffix (s : List Char) : Bool :=
  goHasPref ['/'] s.reverse

/-- Go `strings.Cut(s, "/")`: the part before the first slash, the part
after it, and whether a slash was found; `(s, "", false)` when absent. -/
def cutSlash : List Char → List Char × List Char × Bool
  | [] => ([], [], false)
  | c :: rest =>
    if c = '/' then ([], rest, true)
    else
      let r := cutSlash rest
      (c :: r.1, r.2.1, r.2.2)

/-- Go `strings.Split(s, "/")`: the groups between slashes (always at least
one group, possibly empty). -/
def splitSlash : List Char → List (List Char)
  | [] => [[]]
  | c :: rest =>
    if c = '/' then [] :: splitSlash rest
    else
      match splitSlash rest with
      | [] => [[c]]
      | g :: gs => (c :: g) :: gs

/-- Last element of a group list, with a default (the Go code indexes
`slice[len(slice)-1]`, which is total because `Split` is never empty). -/
def lastOr (d : List Char) : List (List Char) → List Char
  | [] => d
  | [x] => x
  | _ :: x :: xs => lastOr d (x :: xs)

/-- The characters of `s` after its last slash (all of `s` when it has
no slash).  This is the spec's reading of "basename". -/
def afterLastSlash (s : List Char) : List Char :=
  (s.reverse.takeWhile (fun x => x ≠ '/')).reverse

/-- Go `path.Base`: trim trailing slashes, keep everything after the last
remaining slash; "" ↦ ".", all-slashes ↦ "/". -/
def goPathBase (s : List Char) : List Char :=
  if s = [] then ['.']
  else
    let s1 := (s.reverse.dropWhile (fun x => x = '/')).reverse
    let s2 := afterLastSlash s1
    if s2 = [] then ['/'] else s2

/-- The backtracking step of `path.Clean`'s `..` handling: with the
output buffer reversed in `rout` and one character already popped
(`popped`), keep popping while the buffer is longer than `dotdot` and
the popped character is not a slash (Go: `out.w--; for out.w > dotdot &&
out.index(out.w) != '/' { out.w-- }`). -/
def cleanPopLoop (dotdot : Nat) (popped : Char) (rout : List Char) : List Char :=
  if rout.length > dotdot ∧ popped ≠ '/' then
    match rout with
    | [] => []
    | c :: tl => cleanPopLoop dotdot c tl
  else rout

/-- Pop one path component from the reversed output buffer of
`path.Clean` (the `out.w > dotdot` arm of the `..` case). -/
def cleanPop (dotdot : Nat) (rout : List Char) : List Char :=
  match rout with
  | [] => []
  | c :: tl => cleanPopLoop dotdot c tl

/-- Main loop of Go `path.Clean`, on the remaining input with the output
buffer kept reversed in `rout`; transcribed case-for-case from the Go
source (empty element, `.` element, `..` element, normal component).
The extra `fuel` argument only serves structural termination: every
iteration consumes at least one input character, so with `fuel ≥`
the input length the fuel-exhausted branch coincides with the
empty-input branch. -/
def cleanLoop (rooted : Bool) : Nat → List Char → List Char → Nat → List Char
  | 0, _, rout, _ => rout
  | _ + 1, [], rout, _ => rout
  | fuel + 1, c :: rest, rout, dotdot =>
    if c = '/' then
      cleanLoop rooted fuel rest rout dotdot
    else if c = '.' ∧ (rest = [] ∨ rest.head? = some '/') then
      cleanLoop rooted fuel rest rout dotdot
    else if c = '.' ∧ rest.head? = some '.' ∧ (rest.tail = [] ∨ rest.tail.head? = some '/') then
      if rout.length > dotdot then
        cleanLoop rooted fuel rest.tail (cleanPop dotdot rout) dotdot
      else if !rooted then
        let rout1 := if rout.length > 0 then '/' :: rout else rout
        let rout2 := '.' :: '.' :: rout1
        cleanLoop rooted fuel rest.tail rout2 rout2.length
      else
        cleanLoop rooted fuel rest.tail rout dotdot
    else
      let rout1 :=
        if (rooted ∧ rout.length ≠ 1) ∨ (!rooted ∧ rout.length ≠ 0) then '/' :: rout else rout
      let comp := (c :: rest).takeWhile (fun x => x ≠ '/')
      let rest' := (c :: rest).dropWhile (fun x => x ≠ '/')
      cleanLoop rooted fuel rest' (comp.reverse ++ rout1) dotdot

/-- Go `path.Clean` on character lists. -/
def pathClean (s : List Char) : List Char :=
  if s = [] then ['.']
  else
    let rooted := s.head? = some '/'
    let input := if rooted then s.tail else s
    let rout0 : List Char := if rooted then ['/'] else []
    let dotdot0 : Nat := if rooted then 1 else 0
    let out := cleanLoop rooted input.length input rout0 dotdot0
    if out = [] then ['.'] else out.reverse

example : pathClean "logs/2024".data = "logs/2024".data := by decide
example : pathClean "".data = ".".data := by decide
example : pathClean "a//b/./c/../d".data = "a/b/d".data := by decide
example : pathClean "/../x/".data = "/x".data := by decide
example : pathClean "../../a".data = "../../a".data := by decide
example : pathClean "a/..".data = ".".data := by decide

/-- Method `(be *Backend) Save`: upload the stream, then on upload success
re-fetch the object metadata by key and compare the reported
content-length with the reader's length (`rdLength`). -/
def Backend.Save (be : Backend) (c : Client) (h : Handle) (rdLength : Int) :
    Option GoError × List Call :=
  let objName := be.filename h
  match c.namespaceResp with
  | .error e =>
    (some { msg := "unable to fetch namespace: " ++ e.msg, httpStatus := e.httpStatus },
     [Call.getNamespace])
  | .ok ns =>
    let uerr := c.uploadStreamResp ns be.cfg.bucketName objName
    let tr0 := [Call.getNamespace, Call.uploadStream ns be.cfg.bucketName objName]
    match uerr with
    | none =>
      match c.headObjectResp ns be.cfg.bucketName objName with
      | .error e =>
        (goWrap (some e) "client.fetch getResponse",
         tr0 ++ [Call.headObject ns be.cfg.bucketName objName])
      | .ok resp =>
        let size := SafeDeref resp.contentLength
        if size ≠ rdLength then
          (some { msg := "wrote " ++ toString size ++ " bytes instead of the expected " ++
                          toString rdLength ++ " bytes",
                  httpStatus := none },
           tr0 ++ [Call.headObject ns be.cfg.bucketName objName])
        else
          (goWrap none "client.UploadStreamRequest",
           tr0 ++ [Call.headObject ns be.cfg.bucketName objName])
    | some e => (goWrap (some e) "client.UploadStreamRequest", tr0)

/-- Two's-complement `int64` wraparound: the value of a 64-bit signed
computation whose mathematical result is `x`. -/
def int64Wrap (x : Int) : Int :=
  (x + 2 ^ 63) % 2 ^ 64 - 2 ^ 63

/-- Method `(be *Backend) openReader`: compute the byte range for `(length,
offset)`, reject invalid combinations before any remote call, then issue
`GetObject` with or without a `Range` header.  The range end is the Go
expression `offset+int64(length)-1`, which is evaluated in 64-bit signed
arithmetic and therefore wraps around. -/
def Backend.openReader (be : Backend) (c : Client) (h : Handle) (length : Int) (offset : Int) :
    Option GoError × List Call :=
  let objName := be.filename h
  let ranged : String × Option GoError :=
    if length > 0 then getRange offset (int64Wrap (offset + length - 1))
    else if offset > 0 then getRange offset 0
    else ("", none)
  match ranged.2 with
  | some e => (some e, [])
  | none =>
    match c.namespaceResp with
    | .error e =>
      (some { msg := "unable to fetch namespace: " ++ e.msg, httpStatus := e.httpStatus },
       [Call.getNamespace])
    | .ok ns =>
      let rng : Option String := if ranged.1 = "" then none else some ranged.1
      (c.getObjectResp ns be.cfg.bucketName objName rng,
       [Call.getNamespace, Call.getObject ns be.cfg.bucketName objName rng])

/-- Method `(be *Backend) Stat`: metadata-only fetch by key.  Returns the Go
pair `(restic.FileInfo, error)`: error branches return the zero
`FileInfo`, and the success branch takes the name from the last
`/`-separated piece of the object key. -/
def Backend.Stat (be : Backend) (c : Client) (h : Handle) :
    (FileInfo × Option GoError) × List Call :=
  let objName := be.filename h
  match c.namespaceResp with
  | .error e =>
    ((⟨0, ""⟩, some { msg := "unable to fetch namespace: " ++ e.msg, httpStatus := e.httpStatus }),
     [Call.getNamespace])
  | .ok ns =>
    let tr := [Call.getNamespace, Call.headObject ns be.cfg.bucketName objName]
    match c.headObjectResp ns be.cfg.bucketName objName with
    | .error e => ((⟨0, ""⟩, goWrap (some e) "Stat"), tr)
    | .ok resp =>
      if resp.statusCode = 404 then
        ((⟨0, ""⟩, goWrap none "File not found"), tr)
      else
        ((⟨SafeDeref resp.contentLength,
           String.mk (lastOr [] (splitSlash objName.data))⟩, none), tr)

/-- Method `(be *Backend) Remove`: delete by key, treating NotFound as success. -/
def Backend.Remove (be : Backend) (c : Client) (h : Handle) :
    Option GoError × List Call :=
  let objName := be.filename h
  match c.namespaceResp with
  | .error e =>
    (some { msg := "unable to fetch namespace: " ++ e.msg, httpStatus := e.httpStatus },
     [Call.getNamespace])
  | .ok ns =>
    let d := deleteObject c ns be.cfg.bucketName objName
    let err := if Backend.IsNotExist d.1 then none else d.1
    (goWrap err "client.RemoveObject", [Call.getNamespace] ++ d.2)

/-- Method `(be *Backend) Rename`: no-op when the old and new derived keys are
equal; otherwise copy old→new, treating a NotFound copy failure as
success, propagating any other copy failure, and deleting the old key
only after a successful copy. -/
def Backend.Rename (be : Backend) (c : Client) (h : Handle) (l : Handle → String) :
    Option GoError × List Call :=
  let oldname := be.filename h
  let newname := l h
  if oldname = newname then (none, [])
  else
    match c.namespaceResp with
    | .error e =>
      (some { msg := "unable to fetch namespace: " ++ e.msg, httpStatus := e.httpStatus },
       [Call.getNamespace])
    | .ok ns =>
      let cerr := c.copyObjectResp ns be.cfg.bucketName oldname newname
      let tr := [Call.getNamespace,
                 Call.copyObject ns be.cfg.bucketName oldname newname
                   be.cfg.bucketName be.cfg.region ns]
      match cerr with
      | some e =>
        if Backend.IsNotExist (some e) then (none, tr) else (some e, tr)
      | none =>
        let d := deleteObject c ns be.cfg.bucketName oldname
        (d.1, tr ++ d.2)

/-- Function `createBucket`: create the bucket in the compartment, propagating
any error. -/
def createBucket (c : Client) (ns name compartmentOCID : String) :
    Option GoError × List Call :=
  match c.createBucketResp ns name compartmentOCID with
  | some e => (some e, [Call.createBucket ns name compartmentOCID])
  | none => (none, [Call.createBucket ns name compartmentOCID])

/-- Function `ensureBucketExists`: fetch the bucket; when the fetch errors AND the
raw response status is 404, create the bucket; in every other case
(including non-404 fetch errors) return nil. -/
def ensureBucketExists (c : Client) (ns name compartmentOCID : String) :
    Option GoError × List Call :=
  let r := c.getBucketResp ns name
  match r.2 with
  | some _ =>
    if r.1.statusCode = 404 then
      let cr := createBucket c ns name compartmentOCID
      (cr.1, [Call.getBucket ns name] ++ cr.2)
    else (none, [Call.getBucket ns name])
  | none => (none, [Call.getBucket ns name])

/-- The per-entry loop of `(be *Backend) List`.  `ctxErr` models
`ctx.Err()` as a function of a logical clock that advances by one at
each read, so cancellation arising between the check before a callback
and the check after it is observable; `fn` is the visitor callback,
whose invocations are recorded as `Call.callback` events. -/
def listLoop (c : Client) (ctxErr : Nat → Option GoError) (fn : FileInfo → Option GoError)
    (ns bucket pre : String) :
    List ObjectSummary → Nat → Option GoError × List Call
  | [], t => (ctxErr t, [])
  | obj :: rest, t =>
    let objName : String := SafeDeref obj.name
    let name := String.mk (goTrimPref pre.data objName.data)
    if name = "" then listLoop c ctxErr fn ns bucket pre rest t
    else
      match c.headObjectResp ns bucket objName with
      | .error e => (some e, [Call.headObject ns bucket objName])
      | .ok resp =>
        let fi : FileInfo := ⟨SafeDeref resp.contentLength, String.mk (goPathBase name.data)⟩
        match ctxErr t with
        | some e => (some e, [Call.headObject ns bucket objName])
        | none =>
          match fn fi with
          | some e => (some e, [Call.headObject ns bucket objName, Call.callback fi.name fi.size])
          | none =>
            match ctxErr (t + 1) with
            | some e =>
              (some e, [Call.headObject ns bucket objName, Call.callback fi.name fi.size])
            | none =>
              let r := listLoop c ctxErr fn ns bucket pre rest (t + 2)
              (r.1, [Call.headObject ns bucket objName, Call.callback fi.name fi.size] ++ r.2)

/-- The listing prefix of `(be *Backend) List`: the layout's base
directory for the file type, normalized to end with a slash. -/
def listPre (be : Backend) (t : FileType) : String :=
  if goHasSlashSuffix (be.basedir t).data then be.basedir t else be.basedir t ++ "/"

/-- Method `(be *Backend) List`: derive the per-type prefix, normalize it to
end with a slash, list the objects under it, and run the per-entry loop. -/
def Backend.List (be : Backend) (c : Client) (t : FileType)
    (ctxErr : Nat → Option GoError) (fn : FileInfo → Option GoError) :
    Option GoError × List Call :=
  let pre := listPre be t
  match c.namespaceResp with
  | .error e =>
    (some { msg := "unable to fetch namespace: " ++ e.msg, httpStatus := e.httpStatus },
     [Call.getNamespace])
  | .ok ns =>
    match c.listObjectsResp ns be.cfg.bucketName pre with
    | .error e => (some e, [Call.getNamespace, Call.listObjects ns be.cfg.bucketName pre])
    | .ok objs =>
      let r := listLoop c ctxErr fn ns be.cfg.bucketName pre objs 0
      (r.1, [Call.getNamespace, Call.listObjects ns be.cfg.bucketName pre] ++ r.2)

/-- The callback events of a trace (used to state which entries `List`
visited). -/
def callbackEvents (tr : List Call) : List Call :=
  tr.filter fun ev =>
    match ev with
    | Call.callback _ _ => true
    | _ => false

/-- Function `ParseConfig` from config.go: require the `oci:` scheme, cut the
remainder at the first slash into bucket name and raw prefix, and store
the cleaned, slash-trimmed prefix (`NewConfig` presets 5 connections;
the fields `ParseConfig` does not touch stay zero-valued). -/
def ParseConfig (s : String) : Except GoError Config :=
  if goHasPref "oci:".data s.data then
    let rest := s.data.drop 4
    let cut := cutSlash rest
    let pre := goTrimPref "/".data (pathClean cut.2.1)
    .ok { bucketName := String.mk cut.1
          pref := String.mk pre
          region := ""
          compartmentOCID := ""
          connections := 5 }
  else
    .error { msg := "oci: invalid format", httpStatus := none }

example : ParseConfig "oci:mybucket/logs/2024" =
    .ok { bucketName := "mybucket", pref := "logs/2024", region := "",
          compartmentOCID := "", connections := 5 } := by decide
example : ParseConfig "oci:mybucket" =
    .ok { bucketName := "mybucket", pref := ".", region := "",
          compartmentOCID := "", connections := 5 } := by decide
example : ParseConfig "oci:mybucket/" =
    .ok { bucketName := "mybucket", pref := ".", region := "",
          compartmentOCID := "", connections := 5 } := by decide
example : (ParseConfig "s3:mybucket").isOk = false := by decide

/-- Lean `String.append` acts as list append on the character data. -/
theorem string_data_append (s t : String) : (s ++ t).data = s.data ++ t.data := rfl

/-- A string beginning with `bytes=` is never empty. -/
theorem bytesPre_ne_empty (x : String) : ("bytes=" ++ x) ≠ "" := by
  intro hcontra
  have hd := congrArg String.data hcontra
  rw [string_data_append] at hd
  simp at hd

/-- Evaluation of `getRange` on a suffix request (`start = 0`, `end < 0`). -/
theorem getRange_eq_of_suffix (s e : Int) (h1 : s = 0) (h2 : e < 0) :
    getRange s e = ("bytes=" ++ toString e, none) := by
  simp only [getRange]
  rw [if_pos ⟨h1, h2⟩]

/-- Evaluation of `getRange` on an open-ended request (`start > 0`, `end = 0`). -/
theorem getRange_eq_of_open (s e : Int) (h1 : 0 < s) (h2 : e = 0) :
    getRange s e = ("bytes=" ++ toString s ++ "-", none) := by
  have n1 : ¬(s = 0 ∧ e < 0) := by omega
  simp only [getRange]
  rw [if_neg n1, if_pos ⟨h1, h2⟩]

/-- Evaluation of `getRange` on a closed request (`0 ≤ start ≤ end`). -/
theorem getRange_eq_of_closed (s e : Int) (h1 : 0 ≤ s) (h2 : s ≤ e) :
    getRange s e = ("bytes=" ++ toString s ++ "-" ++ toString e, none) := by
  have n1 : ¬(s = 0 ∧ e < 0) := by omega
  have n2 : ¬(0 < s ∧ e = 0) := by omega
  simp only [getRange]
  rw [if_neg n1, if_neg n2, if_pos ⟨h1, h2⟩]

/-- Evaluation of `getRange` on every other combination: the invalid-range error. -/
theorem getRange_eq_of_invalid (s e : Int)
    (n1 : ¬(s = 0 ∧ e < 0)) (n2 : ¬(s > 0 ∧ e = 0)) (n3 : ¬(0 ≤ s ∧ s ≤ e)) :
    getRange s e =
      ("bytes=-1",
       some { msg := "Invalid range specified: start=" ++ toString s ++ " end=" ++ toString e,
              httpStatus := none }) := by
  simp only [getRange]
  rw [if_neg n1, if_neg n2, if_neg n3]

/-- C3: for every pair of integers `(start, end)` the range calculator
returns exactly `bytes=<end>` when `start = 0 ∧ end < 0`, exactly
`bytes=<start>-` when `start > 0 ∧ end = 0`, exactly
`bytes=<start>-<end>` when `0 ≤ start ≤ end`, and an invalid-range error
in every other case; in particular `getRange 0 (-100) = "bytes=-100"`,
`getRange 50 0 = "bytes=50-"`, `getRange 10 20 = "bytes=10-20"`, and
`getRange 20 10` is an error. -/
theorem getRange_spec :
    (∀ start end_ : Int,
      (start = 0 ∧ end_ < 0 →
        getRange start end_ = ("bytes=" ++ toString end_, none)) ∧
      (start > 0 ∧ end_ = 0 →
        getRange start end_ = ("bytes=" ++ toString start ++ "-", none)) ∧
      (0 ≤ start ∧ start ≤ end_ →
        getRange start end_ = ("bytes=" ++ toString start ++ "-" ++ toString end_, none)) ∧
      (¬(start = 0 ∧ end_ < 0) → ¬(start > 0 ∧ end_ = 0) → ¬(0 ≤ start ∧ start ≤ end_) →
        (getRange start end_).2.isSome = true)) ∧
    getRange 0 (-100) = ("bytes=-100", none) ∧
    getRange 50 0 = ("bytes=50-", none) ∧
    getRange 10 20 = ("bytes=10-20", none) ∧
    (getRange 20 10).2.isSome = true := by
  refine ⟨?_, by decide, by decide, by decide, by decide⟩
  intro s e
  refine ⟨?_, ?_, ?_, ?_⟩
  · rintro ⟨h1, h2⟩
    exact getRange_eq_of_suffix s e h1 h2
  · rintro ⟨h1, h2⟩
    exact getRange_eq_of_open s e h1 h2
  · rintro ⟨h1, h2⟩
    exact getRange_eq_of_closed s e h1 h2
  · intro n1 n2 n3
    rw [getRange_eq_of_invalid s e n1 n2 n3]
    rfl

/-- Witness for C3: the theorem applied at the concrete inputs from the
spec's examples. -/
theorem getRange_spec_witness :
    getRange 0 (-7) = ("bytes=-7", none) ∧
    getRange 3 0 = ("bytes=3-", none) ∧
    getRange 2 5 = ("bytes=2-5", none) ∧
    (getRange 7 (-1)).2.isSome = true :=
  ⟨(getRange_spec.1 0 (-7)).1 (by decide),
   (getRange_spec.1 3 0).2.1 (by decide),
   (getRange_spec.1 2 5).2.2.1 (by decide),
   (getRange_spec.1 7 (-1)).2.2.2 (by decide) (by decide) (by decide)⟩

/-- Appending to a nonempty string keeps the data nonempty. -/
theorem append_data_ne_nil_left (s t : String) (hs : s.data ≠ []) :
    (s ++ t).data ≠ [] := by
  rw [string_data_append]
  intro hcontra
  exact hs (List.append_eq_nil.mp hcontra).1

/-- A string with nonempty data is not the empty string. -/
theorem ne_empty_of_data_ne_nil (s : String) (hs : s.data ≠ []) : s ≠ "" :=
  fun hcontra => hs (by rw [hcontra])

/-- A concrete client whose remote calls all succeed, used to
instantiate universally quantified theorems. -/
def witClient : Client where
  namespaceResp := .ok "ns1"
  headObjectResp := fun _ _ _ => .ok ⟨some 5, 200⟩
  uploadStreamResp := fun _ _ _ => none
  getObjectResp := fun _ _ _ _ => none
  deleteObjectResp := fun _ _ _ => none
  copyObjectResp := fun _ _ _ _ => none
  listObjectsResp := fun _ _ _ => .ok []
  getBucketResp := fun _ _ => (⟨200⟩, none)
  createBucketResp := fun _ _ _ => none

/-- A concrete backend over a fixed layout, used to instantiate
universally quantified theorems. -/
def witBackend : Backend where
  cfg := { bucketName := "bkt", pref := "repo", region := "r1",
           compartmentOCID := "comp", connections := 5 }
  filename := fun h => "repo/data/" ++ h.name
  basedir := fun _ => "repo/data"

/-- A concrete not-found service error (HTTP 404). -/
def err404 : GoError := { msg := "object not found", httpStatus := some 404 }

/-- A concrete transport-level error (no HTTP status). -/
def errBoom : GoError := { msg := "boom", httpStatus := none }

/-- C1: whenever the namespace is resolved and the upload reports
success, `Save` issues a metadata re-fetch (`HeadObject`) on the derived
key right after the upload; a failing re-fetch propagates its error;
a reported size different from the reader's length yields the
size-mismatch error; and `Save` returns success exactly when the
reported size equals the expected length. -/
theorem save_sanity_check (be : Backend) (c : Client) (h : Handle) (rdLength : Int)
    (ns : String)
    (hns : c.namespaceResp = .ok ns)
    (hup : c.uploadStreamResp ns be.cfg.bucketName (be.filename h) = none) :
    ((be.Save c h rdLength).2 =
       [Call.getNamespace, Call.uploadStream ns be.cfg.bucketName (be.filename h),
        Call.headObject ns be.cfg.bucketName (be.filename h)]) ∧
    (∀ e, c.headObjectResp ns be.cfg.bucketName (be.filename h) = .error e →
       (be.Save c h rdLength).1 = goWrap (some e) "client.fetch getResponse") ∧
    (∀ resp, c.headObjectResp ns be.cfg.bucketName (be.filename h) = .ok resp →
       SafeDeref resp.contentLength ≠ rdLength →
       (be.Save c h rdLength).1 =
         some { msg := "wrote " ++ toString (SafeDeref resp.contentLength) ++
                        " bytes instead of the expected " ++ toString rdLength ++ " bytes",
                httpStatus := none }) ∧
    (∀ resp, c.headObjectResp ns be.cfg.bucketName (be.filename h) = .ok resp →
       ((be.Save c h rdLength).1 = none ↔ SafeDeref resp.contentLength = rdLength)) := by
  refine ⟨?_, ?_, ?_, ?_⟩
  · cases hh : c.headObjectResp ns be.cfg.bucketName (be.filename h) with
    | error e => simp [Backend.Save, hns, hup, hh]
    | ok resp =>
      by_cases hsz : SafeDeref resp.contentLength = rdLength <;>
        simp [Backend.Save, hns, hup, hh, hsz]
  · intro e hh
    simp [Backend.Save, hns, hup, hh, goWrap]
  · intro resp hh hsz
    simp [Backend.Save, hns, hup, hh, hsz]
  · intro resp hh
    by_cases hsz : SafeDeref resp.contentLength = rdLength <;>
      simp [Backend.Save, hns, hup, hh, hsz, goWrap]

/-- Witness for C1: a successful upload whose re-fetched size (5)
differs from the expected length (9) yields the size-mismatch error. -/
theorem save_sanity_check_witness :
    (witBackend.Save witClient ⟨FileType.packFile, "p1"⟩ 9).2 =
      [Call.getNamespace, Call.uploadStream "ns1" "bkt" "repo/data/p1",
       Call.headObject "ns1" "bkt" "repo/data/p1"] ∧
    (witBackend.Save witClient ⟨FileType.packFile, "p1"⟩ 9).1 =
      some { msg := "wrote 5 bytes instead of the expected 9 bytes", httpStatus := none } :=
  ⟨(save_sanity_check witBackend witClient ⟨FileType.packFile, "p1"⟩ 9 "ns1" rfl rfl).1,
   (save_sanity_check witBackend witClient ⟨FileType.packFile, "p1"⟩ 9 "ns1" rfl rfl).2.2.1
     ⟨some 5, 200⟩ rfl (by decide)⟩

/-- C5: `Remove` is idempotent: a NotFound delete failure yields
success; any other delete failure is returned to the caller (wrapped
with the operation name, cause preserved); a successful delete yields
success. -/
theorem remove_idempotent (be : Backend) (c : Client) (h : Handle) (ns : String)
    (hns : c.namespaceResp = .ok ns) :
    (∀ e, c.deleteObjectResp ns be.cfg.bucketName (be.filename h) = some e →
       e.httpStatus = some 404 →
       be.Remove c h =
         (none, [Call.getNamespace, Call.deleteObject ns be.cfg.bucketName (be.filename h)])) ∧
    (∀ e, c.deleteObjectResp ns be.cfg.bucketName (be.filename h) = some e →
       e.httpStatus ≠ some 404 →
       (be.Remove c h).1 =
         some { msg := "client.RemoveObject: " ++ e.msg, httpStatus := e.httpStatus }) ∧
    (c.deleteObjectResp ns be.cfg.bucketName (be.filename h) = none →
       (be.Remove c h).1 = none) := by
  refine ⟨?_, ?_, ?_⟩
  · intro e hdel h404
    simp [Backend.Remove, hns, hdel, deleteObject, Backend.IsNotExist, h404, goWrap]
  · intro e hdel h404
    simp [Backend.Remove, hns, hdel, deleteObject, Backend.IsNotExist, h404, goWrap]
  · intro hdel
    simp [Backend.Remove, hns, hdel, deleteObject, Backend.IsNotExist, goWrap]

/-- Witness for C5: deleting an already-missing object succeeds. -/
theorem remove_idempotent_witness :
    witBackend.Remove { witClient with deleteObjectResp := fun _ _ _ => some err404 }
        ⟨FileType.lockFile, "l1"⟩ =
      (none, [Call.getNamespace, Call.deleteObject "ns1" "bkt" "repo/data/l1"]) :=
  (remove_idempotent witBackend
      { witClient with deleteObjectResp := fun _ _ _ => some err404 }
      ⟨FileType.lockFile, "l1"⟩ "ns1" rfl).1 err404 rfl (by decide)

/-- C6: when the object does not exist (the metadata fetch fails with a
service error carrying HTTP status 404), `Stat` returns a non-nil error
that the backend's `IsNotExist` classifier recognizes as NotFound. -/
theorem stat_notfound_classified (be : Backend) (c : Client) (h : Handle) (ns : String)
    (e : GoError)
    (hns : c.namespaceResp = .ok ns)
    (hhead : c.headObjectResp ns be.cfg.bucketName (be.filename h) = .error e)
    (h404 : e.httpStatus = some 404) :
    (be.Stat c h).1.2 ≠ none ∧ Backend.IsNotExist (be.Stat c h).1.2 = true := by
  constructor
  · simp [Backend.Stat, hns, hhead, goWrap]
  · simp [Backend.Stat, hns, hhead, goWrap, Backend.IsNotExist, h404]

/-- Witness for C6: a 404 metadata fetch is classified as NotFound. -/
theorem stat_notfound_classified_witness :
    (witBackend.Stat { witClient with headObjectResp := fun _ _ _ => .error err404 }
        ⟨FileType.indexFile, "i1"⟩).1.2 ≠ none ∧
    Backend.IsNotExist
      ((witBackend.Stat { witClient with headObjectResp := fun _ _ _ => .error err404 }
        ⟨FileType.indexFile, "i1"⟩).1.2) = true :=
  stat_notfound_classified witBackend
    { witClient with headObjectResp := fun _ _ _ => .error err404 }
    ⟨FileType.indexFile, "i1"⟩ "ns1" err404 rfl rfl rfl

/-- Lemma: `takeWhile` walks through a fully-satisfying first chunk. -/
theorem takeWhile_append_of_all (p : Char → Bool) (xs ys : List Char)
    (hall : ∀ x ∈ xs, p x = true) :
    (xs ++ ys).takeWhile p = xs ++ ys.takeWhile p := by
  induction xs with
  | nil => simp
  | cons c t ih =>
    have hc : p c = true := hall c (by simp)
    simp only [List.cons_append, List.takeWhile_cons, hc, if_true]
    simp [ih fun x hx => hall x (by simp [hx])]

/-- Lemma: `takeWhile` never reaches past a failing element of the first chunk. -/
theorem takeWhile_append_of_bad (p : Char → Bool) (xs ys : List Char)
    (a : Char) (ha : a ∈ xs) (hpa : p a = false) :
    (xs ++ ys).takeWhile p = xs.takeWhile p := by
  induction xs with
  | nil => simp at ha
  | cons c t ih =>
    by_cases hc : p c = true
    · have hat : a ∈ t := by
        rcases List.mem_cons.mp ha with h1 | h1
        · rw [h1] at hpa; rw [hpa] at hc; cases hc
        · exact h1
      simp only [List.cons_append, List.takeWhile_cons, hc, if_true]
      simp [ih hat]
    · have hc' : p c = false := Bool.not_eq_true _ ▸ (by simpa using hc)
      simp [List.takeWhile_cons, hc']

/-- Prepending a slash does not change the text after the last slash. -/
theorem afterLastSlash_slash_cons (rest : List Char) :
    afterLastSlash ('/' :: rest) = afterLastSlash rest := by
  unfold afterLastSlash
  by_cases hr : '/' ∈ rest
  · have : ('/' : Char) ∈ rest.reverse := List.mem_reverse.mpr hr
    rw [show ('/' :: rest).reverse = rest.reverse ++ ['/'] by simp,
        takeWhile_append_of_bad _ _ _ '/' this (by simp)]
  · have hall : ∀ x ∈ rest.reverse, (fun x => decide (x ≠ '/')) x = true := by
      intro x hx
      simp only [decide_eq_true_eq]
      intro hxeq
      exact hr (by rw [← hxeq]; exact List.mem_reverse.mp hx)
    have h1 : List.takeWhile (fun x => decide (x ≠ '/')) ['/'] = [] := by decide
    rw [show ('/' :: rest).reverse = rest.reverse ++ ['/'] by simp,
        takeWhile_append_of_all _ _ _ hall, h1, List.append_nil,
        List.takeWhile_eq_self_iff.mpr hall]

/-- Prepending a non-slash character in front of a slash-containing list
does not change the text after the last slash. -/
theorem afterLastSlash_cons_of_mem (c : Char) (rest : List Char)
    (hr : '/' ∈ rest) :
    afterLastSlash (c :: rest) = afterLastSlash rest := by
  unfold afterLastSlash
  have : ('/' : Char) ∈ rest.reverse := List.mem_reverse.mpr hr
  rw [show (c :: rest).reverse = rest.reverse ++ [c] by simp,
      takeWhile_append_of_bad _ _ _ '/' this (by simp)]

/-- A slash-free list is its own after-last-slash text. -/
theorem afterLastSlash_of_not_mem (l : List Char) (hl : '/' ∉ l) :
    afterLastSlash l = l := by
  unfold afterLastSlash
  have hall : ∀ x ∈ l.reverse, (fun x => decide (x ≠ '/')) x = true := by
    intro x hx
    simp only [decide_eq_true_eq]
    intro hxeq
    exact hl (by rw [← hxeq]; exact List.mem_reverse.mp hx)
  rw [List.takeWhile_eq_self_iff.mpr hall]
  simp

/-- Go `strings.Split` never returns an empty slice. -/
theorem splitSlash_ne_nil (l : List Char) : splitSlash l ≠ [] := by
  cases l with
  | nil => simp [splitSlash]
  | cons c rest =>
    simp only [splitSlash]
    by_cases hc : c = '/'
    · simp [hc]
    · simp only [hc, if_false]
      cases splitSlash rest <;> simp

/-- Go `strings.Split` of a slash-free string is the one-element slice. -/
theorem splitSlash_of_not_mem (l : List Char) (hl : '/' ∉ l) :
    splitSlash l = [l] := by
  induction l with
  | nil => simp [splitSlash]
  | cons c rest ih =>
    have hc : ¬(c = '/') := fun hh => hl (by simp [hh])
    have hr : '/' ∉ rest := fun hh => hl (by simp [hh])
    simp only [splitSlash, hc, if_false, ih hr]

/-- Go `strings.Split` of a slash-containing string has at least two
elements. -/
theorem splitSlash_two_le (l : List Char) (hl : '/' ∈ l) :
    2 ≤ (splitSlash l).length := by
  induction l with
  | nil => simp at hl
  | cons c rest ih =>
    simp only [splitSlash]
    by_cases hc : c = '/'
    · subst hc
      rw [if_pos rfl]
      have hne := splitSlash_ne_nil rest
      have hlen : 1 ≤ (splitSlash rest).length := by
        cases hsp : splitSlash rest with
        | nil => exact absurd hsp hne
        | cons a b => simp
      simp only [List.length_cons]
      omega
    · have hr : '/' ∈ rest := by
        rcases List.mem_cons.mp hl with h1 | h1
        · exact absurd h1.symm hc
        · exact h1
      have h2 := ih hr
      simp only [hc, if_false]
      cases hsp : splitSlash rest with
      | nil => exact absurd hsp (splitSlash_ne_nil rest)
      | cons g gs =>
        rw [hsp] at h2
        simpa using h2

/-- Helper `lastOr` skips a leading element of a nonempty tail. -/
theorem lastOr_cons_of_ne_nil (d a : List Char) (S : List (List Char)) (hS : S ≠ []) :
    lastOr d (a :: S) = lastOr d S := by
  cases S with
  | nil => exact absurd rfl hS
  | cons b bs => rfl

/-- The last element of Go's `strings.Split(s, "/")` is exactly the text
of `s` after its last slash. -/
theorem lastOr_splitSlash (l : List Char) :
    lastOr [] (splitSlash l) = afterLastSlash l := by
  induction l with
  | nil => simp [splitSlash, lastOr, afterLastSlash]
  | cons c rest ih =>
    by_cases hc : c = '/'
    · subst hc
      rw [afterLastSlash_slash_cons]
      have hsp : splitSlash ('/' :: rest) = [] :: splitSlash rest := by
        simp [splitSlash]
      rw [hsp, lastOr_cons_of_ne_nil _ _ _ (splitSlash_ne_nil rest)]
      exact ih
    · by_cases hr : '/' ∈ rest
      · rw [afterLastSlash_cons_of_mem c rest hr]
        have h2 := splitSlash_two_le rest hr
        cases hsp : splitSlash rest with
        | nil => exact absurd hsp (splitSlash_ne_nil rest)
        | cons g gs =>
          have hgs : gs ≠ [] := by
            rw [hsp] at h2
            cases gs
            · simp at h2
            · simp
          simp only [splitSlash, hc, if_false, hsp]
          rw [lastOr_cons_of_ne_nil _ _ _ hgs, ← ih, hsp,
              lastOr_cons_of_ne_nil _ _ _ hgs]
      · have hnotmem : '/' ∉ (c :: rest) := by
          intro hh
          rcases List.mem_cons.mp hh with h1 | h1
          · exact hc h1.symm
          · exact hr h1
        rw [afterLastSlash_of_not_mem _ hnotmem]
        simp only [splitSlash, hc, if_false, splitSlash_of_not_mem rest hr]
        rfl

/-- C2: `Rename` follows the four-state machine: identical derived keys
are a no-op success with no remote call; otherwise (once the namespace
resolves) a copy old→new is issued; a NotFound copy failure is success
with no delete; any other copy failure is returned with no delete; and
only after a successful copy is the old key deleted (the copy call
precedes the delete call in the trace). -/
theorem rename_state_machine (be : Backend) (c : Client) (h : Handle) (l : Handle → String) :
    (be.filename h = l h → be.Rename c h l = (none, [])) ∧
    (∀ ns, be.filename h ≠ l h → c.namespaceResp = .ok ns →
      (∀ e, c.copyObjectResp ns be.cfg.bucketName (be.filename h) (l h) = some e →
        e.httpStatus = some 404 →
        be.Rename c h l =
          (none,
           [Call.getNamespace,
            Call.copyObject ns be.cfg.bucketName (be.filename h) (l h)
              be.cfg.bucketName be.cfg.region ns])) ∧
      (∀ e, c.copyObjectResp ns be.cfg.bucketName (be.filename h) (l h) = some e →
        e.httpStatus ≠ some 404 →
        be.Rename c h l =
          (some e,
           [Call.getNamespace,
            Call.copyObject ns be.cfg.bucketName (be.filename h) (l h)
              be.cfg.bucketName be.cfg.region ns])) ∧
      (c.copyObjectResp ns be.cfg.bucketName (be.filename h) (l h) = none →
        be.Rename c h l =
          ((c.deleteObjectResp ns be.cfg.bucketName (be.filename h)),
           [Call.getNamespace,
            Call.copyObject ns be.cfg.bucketName (be.filename h) (l h)
              be.cfg.bucketName be.cfg.region ns,
            Call.deleteObject ns be.cfg.bucketName (be.filename h)]))) := by
  refine ⟨?_, ?_⟩
  · intro heq
    simp [Backend.Rename, heq]
  · intro ns hne hns
    refine ⟨?_, ?_, ?_⟩
    · intro e hcopy h404
      simp [Backend.Rename, hne, hns, hcopy, Backend.IsNotExist, h404]
    · intro e hcopy h404
      simp [Backend.Rename, hne, hns, hcopy, Backend.IsNotExist, h404]
    · intro hcopy
      simp [Backend.Rename, hne, hns, hcopy, deleteObject]

/-- Witness for C2: with a copy that fails NotFound, `Rename` succeeds
and issues no delete. -/
theorem rename_state_machine_witness :
    witBackend.Rename
        { witClient with copyObjectResp := fun _ _ _ _ => some err404 }
        ⟨FileType.packFile, "p1"⟩ (fun h => "new/" ++ h.name) =
      (none,
       [Call.getNamespace,
        Call.copyObject "ns1" "bkt" "repo/data/p1" "new/p1" "bkt" "r1" "ns1"]) :=
  ((rename_state_machine witBackend
      { witClient with copyObjectResp := fun _ _ _ _ => some err404 }
      ⟨FileType.packFile, "p1"⟩ (fun h => "new/" ++ h.name)).2 "ns1"
    (by decide) rfl).1 err404 rfl (by decide)

/-- C10: on a successful `Stat` the returned name is the basename of the
derived object key (the text after its last slash) — in particular not
the full key whenever the key contains a slash — while the metadata
lookup itself is issued against the full key. -/
theorem stat_name_basename (be : Backend) (c : Client) (h : Handle) (ns : String)
    (resp : HeadObjectResponse)
    (hns : c.namespaceResp = .ok ns)
    (hhead : c.headObjectResp ns be.cfg.bucketName (be.filename h) = .ok resp)
    (hst : resp.statusCode ≠ 404) :
    (be.Stat c h).1.2 = none ∧
    (be.Stat c h).1.1.name = String.mk (afterLastSlash (be.filename h).data) ∧
    ('/' ∈ (be.filename h).data → (be.Stat c h).1.1.name ≠ be.filename h) ∧
    (be.Stat c h).2 = [Call.getNamespace, Call.headObject ns be.cfg.bucketName (be.filename h)] := by
  have hname : (be.Stat c h).1.1.name = String.mk (afterLastSlash (be.filename h).data) := by
    simp only [Backend.Stat, hns, hhead]
    rw [if_neg hst]
    exact congrArg String.mk (lastOr_splitSlash _)
  refine ⟨?_, hname, ?_, ?_⟩
  · simp only [Backend.Stat, hns, hhead]
    rw [if_neg hst]
  · intro hmem heq
    rw [hname] at heq
    have hdata : afterLastSlash (be.filename h).data = (be.filename h).data :=
      congrArg String.data heq
    have hsl : ('/' : Char) ∈ afterLastSlash (be.filename h).data := by
      rw [hdata]
      exact hmem
    unfold afterLastSlash at hsl
    have hsl2 := List.mem_reverse.mp hsl
    have := List.mem_takeWhile_imp hsl2
    simp at this
  · simp only [Backend.Stat, hns, hhead]
    rw [if_neg hst]

/-- Witness for C10: `Stat` of key `repo/data/p2` names the result `p2`
and issues the head request on the full key. -/
theorem stat_name_basename_witness :
    (witBackend.Stat witClient ⟨FileType.packFile, "p2"⟩).1.1.name =
      String.mk (afterLastSlash "repo/data/p2".data) ∧
    (witBackend.Stat witClient ⟨FileType.packFile, "p2"⟩).1.1.name ≠ "repo/data/p2" ∧
    (witBackend.Stat witClient ⟨FileType.packFile, "p2"⟩).2 =
      [Call.getNamespace, Call.headObject "ns1" "bkt" "repo/data/p2"] :=
  ⟨(stat_name_basename witBackend witClient ⟨FileType.packFile, "p2"⟩ "ns1"
      ⟨some 5, 200⟩ rfl rfl (by decide)).2.1,
   (stat_name_basename witBackend witClient ⟨FileType.packFile, "p2"⟩ "ns1"
      ⟨some 5, 200⟩ rfl rfl (by decide)).2.2.1 (by decide),
   (stat_name_basename witBackend witClient ⟨FileType.packFile, "p2"⟩ "ns1"
      ⟨some 5, 200⟩ rfl rfl (by decide)).2.2.2⟩

/-- Values already representable in `int64` are unchanged by the wrap. -/
theorem int64Wrap_eq_self (x : Int) (h1 : -(2 ^ 63) ≤ x) (h2 : x < 2 ^ 63) :
    int64Wrap x = x := by
  unfold int64Wrap
  omega

/-- A mathematical result in `[2^63, 2^64)` wraps to a negative `int64`. -/
theorem int64Wrap_neg_of_overflow (x : Int) (h1 : 2 ^ 63 ≤ x) (h2 : x < 2 ^ 64) :
    int64Wrap x < 0 := by
  unfold int64Wrap
  omega

/-- C4: the reader opened for `Load` requests the closed range
`bytes=<offset>-<offset+length-1>` when `length > 0` (the offset being
in range and the 64-bit end computation not overflowing), the open range
`bytes=<offset>-` when `length = 0` and `offset > 0`, and the whole
object (no range header) when both are zero; whenever the range
calculator rejects the combination — in particular when the 64-bit end
computation `offset+int64(length)-1` wraps around for int64-representable
inputs — `openReader` fails with that invalid-range error without
issuing any remote call. -/
theorem openReader_range_requests (be : Backend) (c : Client) (h : Handle)
    (length offset : Int) (ns : String) :
    (c.namespaceResp = .ok ns → length > 0 → 0 ≤ offset →
      offset + length - 1 < 2 ^ 63 →
      be.openReader c h length offset =
        (c.getObjectResp ns be.cfg.bucketName (be.filename h)
           (some ("bytes=" ++ toString offset ++ "-" ++ toString (offset + length - 1))),
         [Call.getNamespace,
          Call.getObject ns be.cfg.bucketName (be.filename h)
            (some ("bytes=" ++ toString offset ++ "-" ++ toString (offset + length - 1)))])) ∧
    (c.namespaceResp = .ok ns → length = 0 → offset > 0 →
      be.openReader c h length offset =
        (c.getObjectResp ns be.cfg.bucketName (be.filename h)
           (some ("bytes=" ++ toString offset ++ "-")),
         [Call.getNamespace,
          Call.getObject ns be.cfg.bucketName (be.filename h)
            (some ("bytes=" ++ toString offset ++ "-"))])) ∧
    (c.namespaceResp = .ok ns → length = 0 → offset = 0 →
      be.openReader c h length offset =
        (c.getObjectResp ns be.cfg.bucketName (be.filename h) none,
         [Call.getNamespace,
          Call.getObject ns be.cfg.bucketName (be.filename h) none])) ∧
    (∀ e, length > 0 → (getRange offset (int64Wrap (offset + length - 1))).2 = some e →
      be.openReader c h length offset = (some e, [])) ∧
    (length > 0 → length < 2 ^ 63 → 0 ≤ offset → offset < 2 ^ 63 →
      2 ^ 63 ≤ offset + length - 1 →
      be.openReader c h length offset =
        (some { msg := "Invalid range specified: start=" ++ toString offset ++
                        " end=" ++ toString (int64Wrap (offset + length - 1)),
                httpStatus := none },
         [])) := by
  refine ⟨?_, ?_, ?_, ?_, ?_⟩
  · intro hns h1 h2 hnof
    have hwrap : int64Wrap (offset + length - 1) = offset + length - 1 :=
      int64Wrap_eq_self _ (by omega) hnof
    have hr : getRange offset (int64Wrap (offset + length - 1)) =
        ("bytes=" ++ toString offset ++ "-" ++ toString (offset + length - 1), none) := by
      rw [hwrap]
      exact getRange_eq_of_closed _ _ h2 (by omega)
    have hb : ("bytes=" : String).data ≠ [] := by decide
    have hne : ("bytes=" ++ toString offset ++ "-" ++ toString (offset + length - 1)) ≠ "" :=
      ne_empty_of_data_ne_nil _
        (append_data_ne_nil_left ("bytes=" ++ toString offset ++ "-")
          (toString (offset + length - 1))
          (append_data_ne_nil_left ("bytes=" ++ toString offset) "-"
            (append_data_ne_nil_left "bytes=" (toString offset) hb)))
    simp only [Backend.openReader, if_pos h1, hr, hns, if_neg hne]
  · intro hns h1 h2
    have hr : getRange offset 0 = ("bytes=" ++ toString offset ++ "-", none) :=
      getRange_eq_of_open _ _ h2 rfl
    have hb : ("bytes=" : String).data ≠ [] := by decide
    have hne : ("bytes=" ++ toString offset ++ "-") ≠ "" :=
      ne_empty_of_data_ne_nil _
        (append_data_ne_nil_left ("bytes=" ++ toString offset) "-"
          (append_data_ne_nil_left "bytes=" (toString offset) hb))
    have hnl : ¬(length > 0) := by omega
    simp only [Backend.openReader, if_neg hnl, if_pos h2, hr, hns, if_neg hne]
  · intro hns h1 h2
    have hnl : ¬(length > 0) := by omega
    have hno : ¬(offset > 0) := by omega
    simp [Backend.openReader, if_neg hnl, if_neg hno, hns]
  · intro e h1 herr
    simp only [Backend.openReader, if_pos h1, herr]
  · intro h1 h2 h3 h4 hof
    have hneg : int64Wrap (offset + length - 1) < 0 :=
      int64Wrap_neg_of_overflow _ hof (by omega)
    have h0 : (0 : Int) < offset := by omega
    have herr : getRange offset (int64Wrap (offset + length - 1)) =
        ("bytes=-1",
         some { msg := "Invalid range specified: start=" ++ toString offset ++
                        " end=" ++ toString (int64Wrap (offset + length - 1)),
                httpStatus := none }) :=
      getRange_eq_of_invalid _ _ (by omega) (by omega) (by omega)
    simp only [Backend.openReader, if_pos h1, herr]

/-- Witness for C4: with both `length` and `offset` positive and no
overflow the request carries the closed range; a negative offset in a
ranged read fails before any remote call; and at `offset = 2^63 - 1`,
`length = 2` the 64-bit end computation wraps and the read fails with
the invalid-range error without any remote call. -/
theorem openReader_range_requests_witness :
    witBackend.openReader witClient ⟨FileType.packFile, "p3"⟩ 10 5 =
      (none,
       [Call.getNamespace, Call.getObject "ns1" "bkt" "repo/data/p3" (some "bytes=5-14")]) ∧
    witBackend.openReader witClient ⟨FileType.packFile, "p3"⟩ 10 (-3) =
      (some { msg := "Invalid range specified: start=-3 end=6", httpStatus := none }, []) ∧
    witBackend.openReader witClient ⟨FileType.packFile, "p3"⟩ 2 9223372036854775807 =
      (some { msg := "Invalid range specified: start=9223372036854775807 end=-9223372036854775808",
              httpStatus := none },
       []) :=
  ⟨(openReader_range_requests witBackend witClient ⟨FileType.packFile, "p3"⟩ 10 5 "ns1").1
      rfl (by decide) (by decide) (by decide),
   (openReader_range_requests witBackend witClient ⟨FileType.packFile, "p3"⟩ 10 (-3) "ns1").2.2.2.1
      { msg := "Invalid range specified: start=-3 end=6", httpStatus := none }
      (by decide) (by decide),
   by
     have hov := (openReader_range_requests witBackend witClient ⟨FileType.packFile, "p3"⟩
        2 9223372036854775807 "ns1").2.2.2.2
        (by decide) (by decide) (by decide) (by decide) (by decide)
     rw [hov]
     decide⟩

/-- C9: a failing bucket-existence check whose raw response status is
not 404 is swallowed: `ensureBucketExists` returns success without
calling `createBucket`; a non-failing check likewise; and `createBucket`
is invoked exactly when the check fails with status 404, in which case
its result is returned. -/
theorem ensureBucketExists_swallow (c : Client) (ns name compartmentOCID : String) :
    (∀ e, (c.getBucketResp ns name).2 = some e →
       (c.getBucketResp ns name).1.statusCode ≠ 404 →
       ensureBucketExists c ns name compartmentOCID = (none, [Call.getBucket ns name])) ∧
    ((c.getBucketResp ns name).2 = none →
       ensureBucketExists c ns name compartmentOCID = (none, [Call.getBucket ns name])) ∧
    (∀ e, (c.getBucketResp ns name).2 = some e →
       (c.getBucketResp ns name).1.statusCode = 404 →
       ensureBucketExists c ns name compartmentOCID =
         ((createBucket c ns name compartmentOCID).1,
          [Call.getBucket ns name, Call.createBucket ns name compartmentOCID])) := by
  refine ⟨?_, ?_, ?_⟩
  · intro e hget hst
    simp [ensureBucketExists, hget, hst]
  · intro hget
    simp [ensureBucketExists, hget]
  · intro e hget hst
    simp [ensureBucketExists, hget, hst, createBucket]
    cases c.createBucketResp ns name compartmentOCID <;> simp

/-- Witness for C9: an authorization failure (status 403) of the
existence check is swallowed as success with no create call. -/
theorem ensureBucketExists_swallow_witness :
    ensureBucketExists
        { witClient with getBucketResp := fun _ _ => (⟨403⟩, some errBoom) }
        "ns1" "bkt" "comp" = (none, [Call.getBucket "ns1" "bkt"]) :=
  (ensureBucketExists_swallow
      { witClient with getBucketResp := fun _ _ => (⟨403⟩, some errBoom) }
      "ns1" "bkt" "comp").1 errBoom rfl (by decide)

/-- A list is a `goHasPref`-prefix of itself followed by anything. -/
theorem goHasPref_self_append (p t : List Char) : goHasPref p (p ++ t) = true := by
  induction p with
  | nil => rfl
  | cons c cs ih => simp [goHasPref, ih]

/-- Dropping the four scheme characters recovers the remainder. -/
theorem oci_scheme_drop (t : List Char) :
    List.drop 4 ('o' :: 'c' :: 'i' :: ':' :: t) = t := rfl

/-- Go `strings.Cut` at the first slash of `before ++ "/" ++ after` when
`before` is slash-free. -/
theorem cutSlash_append (b r : List Char) (hb : '/' ∉ b) :
    cutSlash (b ++ '/' :: r) = (b, r, true) := by
  induction b with
  | nil => simp [cutSlash]
  | cons c cs ih =>
    have hc : ¬(c = '/') := fun hh => hb (by simp [hh])
    have hcs : '/' ∉ cs := fun hh => hb (by simp [hh])
    simp only [List.cons_append, cutSlash, hc, if_false]
    show (c :: (cutSlash (cs ++ '/' :: r)).1, (cutSlash (cs ++ '/' :: r)).2.1,
           (cutSlash (cs ++ '/' :: r)).2.2) = (c :: cs, r, true)
    rw [ih hcs]

/-- Go `strings.Cut` of a slash-free string finds nothing. -/
theorem cutSlash_of_not_mem (b : List Char) (hb : '/' ∉ b) :
    cutSlash b = (b, [], false) := by
  induction b with
  | nil => rfl
  | cons c cs ih =>
    have hc : ¬(c = '/') := fun hh => hb (by simp [hh])
    have hcs : '/' ∉ cs := fun hh => hb (by simp [hh])
    simp only [cutSlash, hc, if_false, ih hcs]

/-- C8: `ParseConfig` rejects inputs without the scheme; for a scheme
input it takes the first path segment as bucket name and the cleaned,
slash-trimmed remainder as the prefix; an absent remainder and an empty
remainder both yield prefix `"."`; and the spec's concrete examples
hold. -/
theorem parseConfig_spec :
    (∀ s : String, goHasPref "oci:".data s.data = false →
      ParseConfig s = .error { msg := "oci: invalid format", httpStatus := none }) ∧
    (∀ bucket rest : String, '/' ∉ bucket.data →
      ParseConfig ("oci:" ++ bucket ++ "/" ++ rest) =
        .ok { bucketName := bucket,
              pref := String.mk (goTrimPref "/".data (pathClean rest.data)),
              region := "", compartmentOCID := "", connections := 5 }) ∧
    (∀ bucket : String, '/' ∉ bucket.data →
      ParseConfig ("oci:" ++ bucket) =
        .ok { bucketName := bucket, pref := ".",
              region := "", compartmentOCID := "", connections := 5 }) ∧
    (∀ bucket : String, '/' ∉ bucket.data →
      ParseConfig ("oci:" ++ bucket ++ "/") =
        .ok { bucketName := bucket, pref := ".",
              region := "", compartmentOCID := "", connections := 5 }) ∧
    ParseConfig "oci:mybucket/logs/2024" =
      .ok { bucketName := "mybucket", pref := "logs/2024",
            region := "", compartmentOCID := "", connections := 5 } ∧
    ParseConfig "oci:mybucket" =
      .ok { bucketName := "mybucket", pref := ".",
            region := "", compartmentOCID := "", connections := 5 } ∧
    ParseConfig "oci:mybucket/" =
      .ok { bucketName := "mybucket", pref := ".",
            region := "", compartmentOCID := "", connections := 5 } ∧
    ParseConfig "mybucket/logs" =
      .error { msg := "oci: invalid format", httpStatus := none } := by
  refine ⟨?_, ?_, ?_, ?_, by decide, by decide, by decide, by decide⟩
  · intro s hpre
    simp [ParseConfig, hpre]
  · intro bucket rest hb
    have hdata : ("oci:" ++ bucket ++ "/" ++ rest).data =
        "oci:".data ++ (bucket.data ++ '/' :: rest.data) := by
      simp only [string_data_append, List.append_assoc]
      try rfl
    simp only [ParseConfig, hdata, goHasPref_self_append, if_true,
               List.cons_append, List.nil_append, oci_scheme_drop,
               cutSlash_append bucket.data rest.data hb]
    try rfl
  · intro bucket hb
    have hdata : ("oci:" ++ bucket).data = "oci:".data ++ bucket.data := by
      simp only [string_data_append]
    simp only [ParseConfig, hdata, goHasPref_self_append, if_true,
               List.cons_append, List.nil_append, oci_scheme_drop,
               cutSlash_of_not_mem bucket.data hb]
    try rfl
  · intro bucket hb
    have hdata : ("oci:" ++ bucket ++ "/").data =
        "oci:".data ++ (bucket.data ++ '/' :: ([] : List Char)) := by
      simp only [string_data_append, List.append_assoc]
      try rfl
    simp only [ParseConfig, hdata, goHasPref_self_append, if_true,
               List.cons_append, List.nil_append, oci_scheme_drop,
               cutSlash_append bucket.data [] hb]
    try rfl

/-- The number of entries of a listing the per-entry loop does not skip
(those whose name does not reduce to the empty string after trimming the
listing prefix); the loop advances the cancellation clock by two per
such entry. -/
def countVisited (pre : String) : List ObjectSummary → Nat
  | [] => 0
  | o :: os =>
    if String.mk (goTrimPref pre.data (SafeDeref o.name).data) = ""
    then countVisited pre os
    else countVisited pre os + 1

/-- Unfolding `countVisited` over a skipped entry. -/
theorem countVisited_cons_skip (pre : String) (o : ObjectSummary) (os : List ObjectSummary)
    (hname : String.mk (goTrimPref pre.data (SafeDeref o.name).data) = "") :
    countVisited pre (o :: os) = countVisited pre os := by
  simp only [countVisited, if_pos hname]

/-- Unfolding `countVisited` over a visited entry. -/
theorem countVisited_cons_vis (pre : String) (o : ObjectSummary) (os : List ObjectSummary)
    (hname : String.mk (goTrimPref pre.data (SafeDeref o.name).data) ≠ "") :
    countVisited pre (o :: os) = countVisited pre os + 1 := by
  simp only [countVisited, if_neg hname]

/-- If the context is cancelled at every clock value and every metadata
fetch succeeds, the listing loop returns the cancellation error without
invoking any callback, from any starting clock. -/
theorem listLoop_cancelled_all (c : Client) (ctxErr : Nat → Option GoError)
    (fn : FileInfo → Option GoError) (ns bucket pre : String) (e : GoError)
    (hc : ∀ u, ctxErr u = some e)
    (hh : ∀ o : String, ∃ resp, c.headObjectResp ns bucket o = .ok resp) :
    ∀ (objs : List ObjectSummary) (t : Nat),
      (listLoop c ctxErr fn ns bucket pre objs t).1 = some e ∧
      callbackEvents (listLoop c ctxErr fn ns bucket pre objs t).2 = [] := by
  intro objs
  induction objs with
  | nil =>
    intro t
    simp [listLoop, hc, callbackEvents]
  | cons obj rest ih =>
    intro t
    by_cases hname : String.mk (goTrimPref pre.data (SafeDeref obj.name).data) = ""
    · simp only [listLoop]
      rw [if_pos hname]
      exact ih t
    · obtain ⟨resp, hresp⟩ := hh (SafeDeref obj.name)
      simp only [listLoop]
      rw [if_neg hname, hresp, hc t]
      simp [callbackEvents]

/-- One step of the listing loop when the cancellation appears exactly
at the post-callback check: the callback of the first entry runs, then
the loop stops with the cancellation error, visiting none of the rest. -/
theorem listLoop_post_cancel (c : Client) (ctxErr : Nat → Option GoError)
    (fn : FileInfo → Option GoError) (ns bucket pre : String)
    (obj : ObjectSummary) (rest : List ObjectSummary) (t : Nat) (e : GoError)
    (resp : HeadObjectResponse)
    (hname : String.mk (goTrimPref pre.data (SafeDeref obj.name).data) ≠ "")
    (hh : c.headObjectResp ns bucket (SafeDeref obj.name) = .ok resp)
    (hpre : ctxErr t = none)
    (hfn : fn ⟨SafeDeref resp.contentLength,
               String.mk (goPathBase (goTrimPref pre.data (SafeDeref obj.name).data))⟩ = none)
    (hpost : ctxErr (t + 1) = some e) :
    listLoop c ctxErr fn ns bucket pre (obj :: rest) t =
      (some e,
       [Call.headObject ns bucket (SafeDeref obj.name),
        Call.callback
          (String.mk (goPathBase (goTrimPref pre.data (SafeDeref obj.name).data)))
          (SafeDeref resp.contentLength)]) := by
  simp only [listLoop]
  rw [if_neg hname, hh, hpre]
  simp only []
  rw [hfn, hpost]

/-- One step of the listing loop when the cancellation is set at the
pre-callback check of the first entry: the loop stops with the
cancellation error; neither this entry's callback nor any later entry
is visited. -/
theorem listLoop_pre_cancel (c : Client) (ctxErr : Nat → Option GoError)
    (fn : FileInfo → Option GoError) (ns bucket pre : String)
    (obj : ObjectSummary) (rest : List ObjectSummary) (t : Nat) (e : GoError)
    (resp : HeadObjectResponse)
    (hname : String.mk (goTrimPref pre.data (SafeDeref obj.name).data) ≠ "")
    (hh : c.headObjectResp ns bucket (SafeDeref obj.name) = .ok resp)
    (hpre : ctxErr t = some e) :
    listLoop c ctxErr fn ns bucket pre (obj :: rest) t =
      (some e, [Call.headObject ns bucket (SafeDeref obj.name)]) := by
  simp only [listLoop]
  rw [if_neg hname, hh, hpre]

/-- Processing a prefix of entries that all succeed (metadata fetched,
callback returning nil) under a context not yet cancelled appends the
prefix trace, advances the logical clock by two per visited entry, and
continues with the rest of the listing; the prefix contributes exactly
one callback per visited entry. -/
theorem listLoop_clean_append (c : Client) (ctxErr : Nat → Option GoError)
    (fn : FileInfo → Option GoError) (ns bucket pre : String) :
    ∀ (objs₁ objs₂ : List ObjectSummary) (t : Nat),
      (∀ o ∈ objs₁, String.mk (goTrimPref pre.data (SafeDeref o.name).data) ≠ "" →
        ∃ resp, c.headObjectResp ns bucket (SafeDeref o.name) = .ok resp ∧
          fn ⟨SafeDeref resp.contentLength,
              String.mk (goPathBase (goTrimPref pre.data (SafeDeref o.name).data))⟩ = none) →
      (∀ u, u < t + 2 * countVisited pre objs₁ → ctxErr u = none) →
      ∃ tr₁ : List Call,
        listLoop c ctxErr fn ns bucket pre (objs₁ ++ objs₂) t =
          ((listLoop c ctxErr fn ns bucket pre objs₂ (t + 2 * countVisited pre objs₁)).1,
           tr₁ ++ (listLoop c ctxErr fn ns bucket pre objs₂
                     (t + 2 * countVisited pre objs₁)).2) ∧
        (callbackEvents tr₁).length = countVisited pre objs₁ := by
  intro objs₁
  induction objs₁ with
  | nil =>
    intro objs₂ t hclean hctx
    refine ⟨[], ?_, rfl⟩
    simp [countVisited]
  | cons o os ih =>
    intro objs₂ t hclean hctx
    by_cases hname : String.mk (goTrimPref pre.data (SafeDeref o.name).data) = ""
    · rw [countVisited_cons_skip pre o os hname] at hctx ⊢
      obtain ⟨tr₁, heq, hlen⟩ := ih objs₂ t
        (fun o' ho' => hclean o' (List.mem_cons_of_mem _ ho')) hctx
      refine ⟨tr₁, ?_, hlen⟩
      have hstep : listLoop c ctxErr fn ns bucket pre ((o :: os) ++ objs₂) t =
          listLoop c ctxErr fn ns bucket pre (os ++ objs₂) t := by
        simp only [List.cons_append, listLoop]
        rw [if_pos hname]
        rfl
      rw [hstep, heq]
    · rw [countVisited_cons_vis pre o os hname] at hctx ⊢
      obtain ⟨resp, hresp, hfn⟩ := hclean o (List.mem_cons_self o os) hname
      have hpre0 : ctxErr t = none := hctx t (by omega)
      have hpre1 : ctxErr (t + 1) = none := hctx (t + 1) (by omega)
      obtain ⟨tr₁, heq, hlen⟩ := ih objs₂ (t + 2)
        (fun o' ho' => hclean o' (List.mem_cons_of_mem _ ho'))
        (fun u hu => hctx u (by omega))
      have hstep : listLoop c ctxErr fn ns bucket pre ((o :: os) ++ objs₂) t =
          ((listLoop c ctxErr fn ns bucket pre (os ++ objs₂) (t + 2)).1,
           [Call.headObject ns bucket (SafeDeref o.name),
            Call.callback
              (String.mk (goPathBase (goTrimPref pre.data (SafeDeref o.name).data)))
              (SafeDeref resp.contentLength)] ++
             (listLoop c ctxErr fn ns bucket pre (os ++ objs₂) (t + 2)).2) := by
        simp only [List.cons_append, listLoop]
        rw [if_neg hname, hresp, hpre0]
        simp only []
        rw [hfn, hpre1]
        rfl
      have hclock : t + 2 + 2 * countVisited pre os = t + 2 * (countVisited pre os + 1) := by
        omega
      rw [hclock] at heq
      refine ⟨Call.headObject ns bucket (SafeDeref o.name) ::
                Call.callback
                  (String.mk (goPathBase (goTrimPref pre.data (SafeDeref o.name).data)))
                  (SafeDeref resp.contentLength) :: tr₁, ?_, ?_⟩
      · rw [hstep, heq]
        simp
      · simp only [callbackEvents, List.filter]
        simp [callbackEvents] at hlen
        simp [hlen]

/-- One step of the listing loop when the metadata fetch of the first
entry fails: the loop aborts with that error; neither this entry's
callback nor any later entry is visited. -/
theorem listLoop_head_err (c : Client) (ctxErr : Nat → Option GoError)
    (fn : FileInfo → Option GoError) (ns bucket pre : String)
    (obj : ObjectSummary) (rest : List ObjectSummary) (t : Nat) (e : GoError)
    (hname : String.mk (goTrimPref pre.data (SafeDeref obj.name).data) ≠ "")
    (hh : c.headObjectResp ns bucket (SafeDeref obj.name) = .error e) :
    listLoop c ctxErr fn ns bucket pre (obj :: rest) t =
      (some e, [Call.headObject ns bucket (SafeDeref obj.name)]) := by
  simp only [listLoop]
  rw [if_neg hname, hh]

/-- Helper `callbackEvents` distributes over trace concatenation. -/
theorem callbackEvents_append (a b : List Call) :
    callbackEvents (a ++ b) = callbackEvents a ++ callbackEvents b := by
  simp [callbackEvents, List.filter_append]

/-- C7: `List` observes caller cancellation at the check before and at
the check after EVERY callback invocation, and a failing per-entry
metadata fetch at ANY position aborts the whole listing.  With the
entries split as `objs₁ ++ obj :: rest` around an arbitrary entry `obj`,
after a prefix `objs₁` processed cleanly (one callback per visited
entry, clock advancing by two each): cancelled-throughout listings
return the cancellation error with no callback at all; cancellation
first visible at `obj`'s pre-callback check returns the cancellation
error with exactly the prefix's callbacks (none for `obj` or `rest`);
cancellation first visible at `obj`'s post-callback check returns the
cancellation error with exactly the prefix's callbacks plus `obj`'s
(none for `rest`); and a failing metadata fetch for `obj` aborts with
that error, with exactly the prefix's callbacks (none for `obj` or
`rest`). -/
theorem list_cancellation_and_abort (be : Backend) (c : Client) (ft : FileType)
    (ctxErr : Nat → Option GoError) (fn : FileInfo → Option GoError)
    (ns : String) (e : GoError)
    (hns : c.namespaceResp = .ok ns) :
    (∀ objs, c.listObjectsResp ns be.cfg.bucketName (listPre be ft) = .ok objs →
       (∀ u, ctxErr u = some e) →
       (∀ o : String, ∃ resp, c.headObjectResp ns be.cfg.bucketName o = .ok resp) →
       (be.List c ft ctxErr fn).1 = some e ∧
       callbackEvents (be.List c ft ctxErr fn).2 = []) ∧
    (∀ objs₁ obj rest resp,
       c.listObjectsResp ns be.cfg.bucketName (listPre be ft) = .ok (objs₁ ++ obj :: rest) →
       (∀ o ∈ objs₁,
         String.mk (goTrimPref (listPre be ft).data (SafeDeref o.name).data) ≠ "" →
         ∃ r, c.headObjectResp ns be.cfg.bucketName (SafeDeref o.name) = .ok r ∧
           fn ⟨SafeDeref r.contentLength,
               String.mk (goPathBase (goTrimPref (listPre be ft).data (SafeDeref o.name).data))⟩
             = none) →
       (∀ u, u < 2 * countVisited (listPre be ft) objs₁ → ctxErr u = none) →
       String.mk (goTrimPref (listPre be ft).data (SafeDeref obj.name).data) ≠ "" →
       c.headObjectResp ns be.cfg.bucketName (SafeDeref obj.name) = .ok resp →
       ctxErr (2 * countVisited (listPre be ft) objs₁) = some e →
       (be.List c ft ctxErr fn).1 = some e ∧
       (callbackEvents (be.List c ft ctxErr fn).2).length =
         countVisited (listPre be ft) objs₁) ∧
    (∀ objs₁ obj rest resp,
       c.listObjectsResp ns be.cfg.bucketName (listPre be ft) = .ok (objs₁ ++ obj :: rest) →
       (∀ o ∈ objs₁,
         String.mk (goTrimPref (listPre be ft).data (SafeDeref o.name).data) ≠ "" →
         ∃ r, c.headObjectResp ns be.cfg.bucketName (SafeDeref o.name) = .ok r ∧
           fn ⟨SafeDeref r.contentLength,
               String.mk (goPathBase (goTrimPref (listPre be ft).data (SafeDeref o.name).data))⟩
             = none) →
       (∀ u, u < 2 * countVisited (listPre be ft) objs₁ → ctxErr u = none) →
       String.mk (goTrimPref (listPre be ft).data (SafeDeref obj.name).data) ≠ "" →
       c.headObjectResp ns be.cfg.bucketName (SafeDeref obj.name) = .ok resp →
       ctxErr (2 * countVisited (listPre be ft) objs₁) = none →
       fn ⟨SafeDeref resp.contentLength,
           String.mk (goPathBase (goTrimPref (listPre be ft).data (SafeDeref obj.name).data))⟩
         = none →
       ctxErr (2 * countVisited (listPre be ft) objs₁ + 1) = some e →
       (be.List c ft ctxErr fn).1 = some e ∧
       (callbackEvents (be.List c ft ctxErr fn).2).length =
         countVisited (listPre be ft) objs₁ + 1) ∧
    (∀ objs₁ obj rest e',
       c.listObjectsResp ns be.cfg.bucketName (listPre be ft) = .ok (objs₁ ++ obj :: rest) →
       (∀ o ∈ objs₁,
         String.mk (goTrimPref (listPre be ft).data (SafeDeref o.name).data) ≠ "" →
         ∃ r, c.headObjectResp ns be.cfg.bucketName (SafeDeref o.name) = .ok r ∧
           fn ⟨SafeDeref r.contentLength,
               String.mk (goPathBase (goTrimPref (listPre be ft).data (SafeDeref o.name).data))⟩
             = none) →
       (∀ u, u < 2 * countVisited (listPre be ft) objs₁ → ctxErr u = none) →
       String.mk (goTrimPref (listPre be ft).data (SafeDeref obj.name).data) ≠ "" →
       c.headObjectResp ns be.cfg.bucketName (SafeDeref obj.name) = .error e' →
       (be.List c ft ctxErr fn).1 = some e' ∧
       (callbackEvents (be.List c ft ctxErr fn).2).length =
         countVisited (listPre be ft) objs₁) := by
  refine ⟨?_, ?_, ?_, ?_⟩
  · intro objs hlist hc hh
    have hloop := listLoop_cancelled_all c ctxErr fn ns be.cfg.bucketName (listPre be ft) e
      hc hh objs 0
    constructor
    · simp only [Backend.List, hns, hlist]
      exact hloop.1
    · simp only [Backend.List, hns, hlist, callbackEvents_append, hloop.2]
      simp [callbackEvents]
  · intro objs₁ obj rest resp hlist hclean hctx hname hh hcan
    obtain ⟨tr₁, heq, hlen⟩ := listLoop_clean_append c ctxErr fn ns be.cfg.bucketName
      (listPre be ft) objs₁ (obj :: rest) 0 hclean (by simpa using hctx)
    have h0 : 0 + 2 * countVisited (listPre be ft) objs₁ =
        2 * countVisited (listPre be ft) objs₁ := by omega
    rw [h0] at heq
    have hstep := listLoop_pre_cancel c ctxErr fn ns be.cfg.bucketName (listPre be ft)
      obj rest (2 * countVisited (listPre be ft) objs₁) e resp hname hh hcan
    have hcb0 : ∀ a b : String, callbackEvents [Call.getNamespace, Call.listObjects a b
        (listPre be ft)] = [] := fun _ _ => rfl
    have hcb1 : ∀ a b o' : String, callbackEvents [Call.headObject a b o'] = [] :=
      fun _ _ _ => rfl
    constructor
    · simp only [Backend.List, hns, hlist, heq, hstep]
    · simp only [Backend.List, hns, hlist, heq, hstep, callbackEvents_append]
      rw [hcb0, hcb1, List.nil_append, List.append_nil]
      exact hlen
  · intro objs₁ obj rest resp hlist hclean hctx hname hh hpre hfn hpost
    obtain ⟨tr₁, heq, hlen⟩ := listLoop_clean_append c ctxErr fn ns be.cfg.bucketName
      (listPre be ft) objs₁ (obj :: rest) 0 hclean (by simpa using hctx)
    have h0 : 0 + 2 * countVisited (listPre be ft) objs₁ =
        2 * countVisited (listPre be ft) objs₁ := by omega
    rw [h0] at heq
    have hstep := listLoop_post_cancel c ctxErr fn ns be.cfg.bucketName (listPre be ft)
      obj rest (2 * countVisited (listPre be ft) objs₁) e resp hname hh hpre hfn hpost
    have hcb0 : ∀ a b : String, callbackEvents [Call.getNamespace, Call.listObjects a b
        (listPre be ft)] = [] := fun _ _ => rfl
    have hcb2 : ∀ (a b o' nm : String) (sz : Int),
        callbackEvents [Call.headObject a b o', Call.callback nm sz] =
          [Call.callback nm sz] := fun _ _ _ _ _ => rfl
    constructor
    · simp only [Backend.List, hns, hlist, heq, hstep]
    · simp only [Backend.List, hns, hlist, heq, hstep, callbackEvents_append]
      rw [hcb0, hcb2, List.nil_append, List.length_append, hlen]
      rfl
  · intro objs₁ obj rest e' hlist hclean hctx hname hh
    obtain ⟨tr₁, heq, hlen⟩ := listLoop_clean_append c ctxErr fn ns be.cfg.bucketName
      (listPre be ft) objs₁ (obj :: rest) 0 hclean (by simpa using hctx)
    have h0 : 0 + 2 * countVisited (listPre be ft) objs₁ =
        2 * countVisited (listPre be ft) objs₁ := by omega
    rw [h0] at heq
    have hstep := listLoop_head_err c ctxErr fn ns be.cfg.bucketName (listPre be ft)
      obj rest (2 * countVisited (listPre be ft) objs₁) e' hname hh
    have hcb0 : ∀ a b : String, callbackEvents [Call.getNamespace, Call.listObjects a b
        (listPre be ft)] = [] := fun _ _ => rfl
    have hcb1 : ∀ a b o' : String, callbackEvents [Call.headObject a b o'] = [] :=
      fun _ _ _ => rfl
    constructor
    · simp only [Backend.List, hns, hlist, heq, hstep]
    · simp only [Backend.List, hns, hlist, heq, hstep, callbackEvents_append]
      rw [hcb0, hcb1, List.nil_append, List.append_nil]
      exact hlen

/-- Witness for C7: a one-entry listing under a context cancelled from
the start returns the cancellation error with no callback invoked; and
in a two-entry listing whose second metadata fetch fails, the listing
aborts with that error after exactly the first entry's callback. -/
theorem list_cancellation_and_abort_witness :
    ((witBackend.List
        { witClient with
            listObjectsResp := fun _ _ _ => .ok [⟨some "repo/data/x1"⟩] }
        FileType.packFile (fun _ => some errBoom) (fun _ => none)).1 = some errBoom ∧
     callbackEvents
       ((witBackend.List
           { witClient with
               listObjectsResp := fun _ _ _ => .ok [⟨some "repo/data/x1"⟩] }
           FileType.packFile (fun _ => some errBoom) (fun _ => none)).2) = []) ∧
    ((witBackend.List
        { witClient with
            listObjectsResp := fun _ _ _ =>
              .ok [⟨some "repo/data/x1"⟩, ⟨some "repo/data/x2"⟩],
            headObjectResp := fun _ _ o =>
              if o = "repo/data/x2" then .error errBoom else .ok ⟨some 5, 200⟩ }
        FileType.packFile (fun _ => none) (fun _ => none)).1 = some errBoom ∧
     (callbackEvents
        ((witBackend.List
            { witClient with
                listObjectsResp := fun _ _ _ =>
                  .ok [⟨some "repo/data/x1"⟩, ⟨some "repo/data/x2"⟩],
                headObjectResp := fun _ _ o =>
                  if o = "repo/data/x2" then .error errBoom else .ok ⟨some 5, 200⟩ }
            FileType.packFile (fun _ => none) (fun _ => none)).2)).length = 1) :=
  ⟨(list_cancellation_and_abort witBackend
      { witClient with listObjectsResp := fun _ _ _ => .ok [⟨some "repo/data/x1"⟩] }
      FileType.packFile (fun _ => some errBoom) (fun _ => none) "ns1" errBoom rfl).1
    [⟨some "repo/data/x1"⟩] rfl (fun _ => rfl) (fun _ => ⟨⟨some 5, 200⟩, rfl⟩),
   by
     have h := (list_cancellation_and_abort witBackend
        { witClient with
            listObjectsResp := fun _ _ _ =>
              .ok [⟨some "repo/data/x1"⟩, ⟨some "repo/data/x2"⟩],
            headObjectResp := fun _ _ o =>
              if o = "repo/data/x2" then .error errBoom else .ok ⟨some 5, 200⟩ }
        FileType.packFile (fun _ => none) (fun _ => none) "ns1" errBoom rfl).2.2.2
        [⟨some "repo/data/x1"⟩] ⟨some "repo/data/x2"⟩ [] errBoom
        rfl
        (by
          intro o ho hname'
          simp only [List.mem_singleton] at ho
          subst ho
          exact ⟨⟨some 5, 200⟩, by decide, rfl⟩)
        (fun _ _ => rfl)
        (by decide)
        (by decide)
     exact ⟨h.1, by rw [h.2]; decide⟩⟩

/-- Witness for C8: the theorem instantiated at a concrete bucket and
remainder. -/
theorem parseConfig_spec_witness :
    ParseConfig "oci:b1/x/./y" =
      .ok { bucketName := "b1", pref := String.mk (goTrimPref "/".data (pathClean "x/./y".data)),
            region := "", compartmentOCID := "", connections := 5 } ∧
    ParseConfig "oci:b1" =
      .ok { bucketName := "b1", pref := ".",
            region := "", compartmentOCID := "", connections := 5 } :=
  ⟨parseConfig_spec.2.1 "b1" "x/./y" (by decide),
   parseConfig_spec.2.2.1 "b1" (by decide)⟩

